import Mathlib

/-!
Verification development for the steerable-kernel basis construction of
`se3cnn/basis_kernels.py`.

The embedding is parametric in a scalar field `K` (instantiated at `ℚ` or `ℝ`
in the theorems).  External math primitives that the source imports from
`se3cnn.SO3` and from torch/scipy — the representation-matrix evaluator
`irr_repr`, the spherical-harmonics evaluator `spherical_harmonics`, the
angle conversion `x_to_alpha_beta`, the SVD-based null-space extraction
inside `get_matrix_kernel`, and the transcendental functions `exp`/`sqrt` —
are taken as parameters of the definitions; everything built on top of them
(grids, Kronecker products, the Sylvester assembly, windowing, stacking and
normalization) is translated directly from the source.  The numeric
self-check assertions of the source that compare tensors with `allclose`
(the quarter-turn check in `_sample_cube` and the random-rotation check in
`_basis_transformation_Q_J`) are pass-or-abort no-ops on the returned value
and are modelled as passing; the structural assertions (null-space count,
length precondition) are modelled with `Except`.
-/

namespace SE3CNN

/-- A kernel cube of shape `(dOut, dIn, size, size, size)`, the shape of one
`K_J` slice in the source, as a function of its five indices. -/
def Cube (K : Type) (dOut dIn size : ℕ) : Type :=
  Fin dOut → Fin dIn → Fin size → Fin size → Fin size → K

/-- A scalar field over the voxel grid, the shape of `r_field` and of one
Gaussian `window` in the source. -/
def RField (K : Type) (size : ℕ) : Type :=
  Fin size → Fin size → Fin size → K

variable {K : Type} [Field K]

/-- Embedding of `torch.linspace(a, b, steps)`: `steps` evenly spaced values
from `a` to `b`; a single step yields `[a]`. -/
def linspace (a b : K) (steps : ℕ) : List K :=
  if steps = 1 then [a]
  else (List.range steps).map (fun (i : ℕ) => a + (b - a) * (i : K) / ((steps : K) - 1))

/-- The sampling grid `rng = torch.linspace(-(size-1)/2, (size-1)/2, steps=size)`
used by `_sample_sh_cube` and `_sample_cube`. -/
def rng (K : Type) [Field K] (size : ℕ) : List K :=
  linspace (-(((size : K) - 1) / 2)) (((size : K) - 1) / 2) size

/-- The grid coordinate of voxel index `i`, read off the sampling grid. -/
def rngVal (size : ℕ) (i : Fin size) : K :=
  (rng K size).getD i 0

/-- Embedding of `_sample_sh_cube(size, J)`: sample the order-`J` spherical
harmonic at the angular coordinate of every voxel; at a voxel with
`x == y == z == 0` the angles are undefined and the source writes
`spherical_harmonics(0, 123, 321)` when `J == 0` and zeros otherwise.
`sh` is the external `spherical_harmonics` evaluator and `xab` the external
`x_to_alpha_beta` conversion. -/
def sample_sh_cube [DecidableEq K] (sh : (J : ℕ) → K → K → Fin (2 * J + 1) → K)
    (xab : K × K × K → K × K) (size J : ℕ) :
    Fin (2 * J + 1) → Fin size → Fin size → Fin size → K :=
  fun m ix iy iz =>
    let x : K := rngVal size ix
    let y : K := rngVal size iy
    let z : K := rngVal size iz
    if x = y ∧ y = z ∧ z = 0 then
      if h : J = 0 then sh 0 123 321 (Fin.cast (by omega) m) else 0
    else
      let ab := xab (x, y, z)
      sh J ab.1 ab.2 m

/-- The admissible intermediate orders
`order_irreps = list(range(abs(order_in - order_out), order_in + order_out + 1))`
of `_sample_cube`. -/
def orderIrreps (order_in order_out : ℕ) : List ℕ :=
  List.range' ((order_in : ℤ) - order_out).natAbs
    (order_in + order_out + 1 - ((order_in : ℤ) - order_out).natAbs)

/-- Flattened row-major index bound, used to embed `torch.view` reshapes. -/
theorem flat_index_lt {i a j m : ℕ} (hi : i < a) (hj : j < m) :
    i * m + j < a * m := by
  calc i * m + j < i * m + m := by omega
    _ = (i + 1) * m := by ring
    _ ≤ a * m := Nat.mul_le_mul_right m (by omega)

/-- Embedding of the `kron` primitive (Kronecker product of two matrices,
row-major block layout as in torch). -/
def kron {a b c d : ℕ} (A : Fin a → Fin b → K) (B : Fin c → Fin d → K) :
    Fin (a * c) → Fin (b * d) → K :=
  fun i j =>
    have hc : 0 < c := by
      rcases Nat.eq_zero_or_pos c with h | h
      · exact absurd i.2 (by simp [h])
      · exact h
    have hd : 0 < d := by
      rcases Nat.eq_zero_or_pos d with h | h
      · exact absurd j.2 (by simp [h])
      · exact h
    A ⟨i.1 / c, Nat.div_lt_of_lt_mul (Nat.mul_comm a c ▸ i.2)⟩
      ⟨j.1 / d, Nat.div_lt_of_lt_mul (Nat.mul_comm b d ▸ j.2)⟩ *
    B ⟨i.1 % c, Nat.mod_lt _ hc⟩ ⟨j.1 % d, Nat.mod_lt _ hd⟩

/-- Identity matrix, embedding `torch.eye(n)`. -/
def eye (K : Type) [Field K] (n : ℕ) [DecidableEq (Fin n)] : Fin n → Fin n → K :=
  fun i j => if i = j then 1 else 0

/-- Embedding of `_R_tensor(a, b, c) = kron(irr_repr(order_out,...), irr_repr(order_in,...))`
inside `_basis_transformation_Q_J`.  `irr` is the external representation
evaluator `irr_repr`. -/
def R_tensor (irr : (order : ℕ) → ℚ → ℚ → ℚ → Fin (2 * order + 1) → Fin (2 * order + 1) → K)
    (order_in order_out : ℕ) (a b c : ℚ) :
    Fin ((2 * order_out + 1) * (2 * order_in + 1)) →
    Fin ((2 * order_out + 1) * (2 * order_in + 1)) → K :=
  kron (irr order_out a b c) (irr order_in a b c)

/-- Embedding of `_sylvester_submatrix(J, a, b, c)`:
`kron(R_tensor, eye(2J+1)) - kron(eye(m_out*m_in), irr_repr(J,...).T)`. -/
def sylvester_submatrix
    (irr : (order : ℕ) → ℚ → ℚ → ℚ → Fin (2 * order + 1) → Fin (2 * order + 1) → K)
    (J order_in order_out : ℕ) (a b c : ℚ) :
    Fin ((2 * order_out + 1) * (2 * order_in + 1) * (2 * J + 1)) →
    Fin ((2 * order_out + 1) * (2 * order_in + 1) * (2 * J + 1)) → K :=
  fun i j =>
    kron (R_tensor irr order_in order_out a b c) (eye K (2 * J + 1)) i j -
    kron (eye K ((2 * order_out + 1) * (2 * order_in + 1)))
      (fun p q => irr J a b c q p) i j

/-- The five hard-coded non-degenerate sample rotations of
`_basis_transformation_Q_J`. -/
def random_angles : List (ℚ × ℚ × ℚ) :=
  [(4.41301023, 5.56684102, 4.59384642),
   (4.93325116, 6.12697327, 4.14574096),
   (0.53878964, 4.09050444, 5.36539036),
   (2.16017393, 3.48835314, 5.55174441),
   (2.52385107, 0.2908958, 3.90040975)]

/-- Embedding of `_basis_transformation_Q_J(J, order_in, order_out)`.
`commonNull` is the external SVD-based common-null-space extraction
(`get_matrices_kernel`, built on `torch.svd`), abstracted as a function from
the list of stacked constraint matrices to a list of null-space row vectors.
The source asserts `null_space.size(0) == 1` (modelled as `Except.error` on
any other count) and on success reshapes the single vector into the
`(2*order_out+1)*(2*order_in+1) × (2*J+1)` matrix `Q_J`.  The subsequent
`allclose` self-check on four random rotations is a pass-or-abort no-op on
the value and is modelled as passing. -/
def basis_transformation_Q_J
    (irr : (order : ℕ) → ℚ → ℚ → ℚ → Fin (2 * order + 1) → Fin (2 * order + 1) → K)
    (commonNull : (n : ℕ) → List (Fin n → Fin n → K) → List (Fin n → K))
    (J order_in order_out : ℕ) :
    Except String (Fin ((2 * order_out + 1) * (2 * order_in + 1)) → Fin (2 * J + 1) → K) :=
  let n := (2 * order_out + 1) * (2 * order_in + 1) * (2 * J + 1)
  let null_space := commonNull n
    (random_angles.map (fun t => sylvester_submatrix irr J order_in order_out t.1 t.2.1 t.2.2))
  if h : null_space.length = 1 then
    Except.ok (fun i j =>
      null_space.get ⟨0, by omega⟩ ⟨i.1 * (2 * J + 1) + j.1, flat_index_lt i.2 j.2⟩)
  else
    Except.error "null space dimension is not 1"

/-- The radial distance field
`r_field = (rng^2 + rng^2 + rng^2).sqrt()` of `_sample_cube`; `sqrtK` is the
external square root. -/
def r_field_of (sqrtK : K → K) (size : ℕ) : RField K size :=
  fun x y z => sqrtK (rngVal size x ^ 2 + rngVal size y ^ 2 + rngVal size z ^ 2)

/-- Embedding of `_sample_cube(size, order_in, order_out)`: for every `J` in
`order_irreps`, contract the cached `Q_J` (abstracted as the total function
`Q`, the successful value of `_basis_transformation_Q_J`) with `Y_J` via
`einsum('mn,nxyz->mxyz')` and reshape to `(2*order_out+1, 2*order_in+1, size, size, size)`;
return the cube list, the radial field and the order list.  The quarter-turn
`allclose` self-check is a pass-or-abort no-op on the value and is modelled
as passing. -/
def sample_cube [DecidableEq K] (sh : (J : ℕ) → K → K → Fin (2 * J + 1) → K)
    (xab : K × K × K → K × K) (sqrtK : K → K) (size order_in order_out : ℕ)
    (Q : (J : ℕ) → Fin ((2 * order_out + 1) * (2 * order_in + 1)) → Fin (2 * J + 1) → K) :
    List (Cube K (2 * order_out + 1) (2 * order_in + 1) size) × RField K size × List ℕ :=
  let irreps := orderIrreps order_in order_out
  let sh_cubes := irreps.map (fun J =>
    let Y_J := sample_sh_cube sh xab size J
    let K_flat : Fin ((2 * order_out + 1) * (2 * order_in + 1)) →
        Fin size → Fin size → Fin size → K :=
      fun m x y z => ∑ n, Q J m n * Y_J n x y z
    (fun i j x y z =>
      K_flat ⟨i.1 * (2 * order_in + 1) + j.1, flat_index_lt i.2 j.2⟩ x y z :
      Cube K (2 * order_out + 1) (2 * order_in + 1) size))
  (sh_cubes, r_field_of sqrtK size, irreps)

/-- Squared Frobenius norm of a cube (the square of `basis.view(n, -1).norm(dim=1)`
for one slice). -/
def frobNormSq {dOut dIn size : ℕ} (c : Cube K dOut dIn size) : K :=
  ∑ i, ∑ j, ∑ x, ∑ y, ∑ z, (c i j x y z) ^ 2

/-- Frobenius norm of a cube; `sqrtK` is the external square root. -/
def frobNorm (sqrtK : K → K) {dOut dIn size : ℕ} (c : Cube K dOut dIn size) : K :=
  sqrtK (frobNormSq c)

/-- One slice of `basis / basis.view(n, -1).norm(dim=1).view(-1, 1, 1, 1, 1, 1)`:
a cube divided by its own Frobenius norm. -/
def normalizeCube (sqrtK : K → K) {dOut dIn size : ℕ}
    (c : Cube K dOut dIn size) : Cube K dOut dIn size :=
  fun i j x y z => c i j x y z / frobNorm sqrtK c

/-- The per-element energy normalization performed in `cube_basis_kernels`
(and identically on line 251 of `check_basis_equivariance`): each slice is
divided by its own flattened L2 norm, with no guard against a zero norm. -/
def normalizeBasis (sqrtK : K → K) {dOut dIn size : ℕ}
    (basis : List (Cube K dOut dIn size)) : List (Cube K dOut dIn size) :=
  basis.map (normalizeCube sqrtK)

/-- Embedding of `cube_basis_kernels(size, order_in, order_out, radial_window)`:
apply the caller-supplied `radial_window` to the `_sample_cube` triple; on a
`None` result return the sentinel unchanged, otherwise normalize each basis
element independently.  `Except.error` models a propagated assertion error
inside the window. -/
def cube_basis_kernels [DecidableEq K] (sh : (J : ℕ) → K → K → Fin (2 * J + 1) → K)
    (xab : K × K × K → K × K) (sqrtK : K → K) (size order_in order_out : ℕ)
    (Q : (J : ℕ) → Fin ((2 * order_out + 1) * (2 * order_in + 1)) → Fin (2 * J + 1) → K)
    (radial_window :
      List (Cube K (2 * order_out + 1) (2 * order_in + 1) size) → RField K size → List ℕ →
      Except String (Option (List (Cube K (2 * order_out + 1) (2 * order_in + 1) size)))) :
    Except String (Option (List (Cube K (2 * order_out + 1) (2 * order_in + 1) size))) :=
  let t := sample_cube sh xab sqrtK size order_in order_out Q
  match radial_window t.1 t.2.1 t.2.2 with
  | Except.error e => Except.error e
  | Except.ok none => Except.ok none
  | Except.ok (some basis) => Except.ok (some (normalizeBasis sqrtK basis))

/-- The Gaussian shell envelope
`torch.exp(-.5 * ((r_field - r) / sigma)**2) / (math.sqrt(2 * math.pi) * sigma)`
of `gaussian_window_fct`; `expK`, `sqrtK`, `piK` are the external `exp`,
`sqrt` and `pi`. -/
def gaussEnvelope (expK sqrtK : K → K) (piK : K) {size : ℕ}
    (r_field : RField K size) (r sigma : K) : RField K size :=
  fun x y z =>
    expK (-(1 / 2) * ((r_field x y z - r) / sigma) ^ 2) / (sqrtK (2 * piK) * sigma)

/-- Embedding of `gaussian_window_fct(sh_cubes, r_field, order_irreps, radii, J_max_list, sigma)`:
assert `len(radii) == len(J_max_list)` (modelled as `Except.error`), then for
each shell `(r, J_max)` in order scan `order_irreps` (paired with `sh_cubes`),
breaking at the first `J > J_max` and otherwise appending the windowed cube;
stack the accepted cubes, or return the `None` sentinel when none passed. -/
def gaussian_window_fct (expK sqrtK : K → K) (piK : K) {dOut dIn size : ℕ}
    (sh_cubes : List (Cube K dOut dIn size)) (r_field : RField K size)
    (order_irreps : List ℕ) (radii : List K) (J_max_list : List ℕ) (sigma : K) :
    Except String (Option (List (Cube K dOut dIn size))) :=
  if radii.length = J_max_list.length then
    let basis := (radii.zip J_max_list).flatMap (fun rj =>
      let window := gaussEnvelope expK sqrtK piK r_field rj.1 sigma
      ((order_irreps.zip sh_cubes).takeWhile (fun Jc => decide (Jc.1 ≤ rj.2))).map
        (fun Jc => (fun i j x y z => Jc.2 i j x y z * window x y z :
          Cube K dOut dIn size)))
    if 0 < basis.length then Except.ok (some basis) else Except.ok none
  else
    Except.error "len radii and len J_max_list differ"

/-- The full-filter variant described by the spec: for each shell in order,
keep every `J` in `order_irreps` with `J ≤ J_max` (no early stop), and
concatenate the windowed cubes in order.  Compared against
`gaussian_window_fct` in the refinement theorem. -/
def gaussian_window_fct_full_filter (expK sqrtK : K → K) (piK : K) {dOut dIn size : ℕ}
    (sh_cubes : List (Cube K dOut dIn size)) (r_field : RField K size)
    (order_irreps : List ℕ) (radii : List K) (J_max_list : List ℕ) (sigma : K) :
    Except String (Option (List (Cube K dOut dIn size))) :=
  if radii.length = J_max_list.length then
    let basis := (radii.zip J_max_list).flatMap (fun rj =>
      let window := gaussEnvelope expK sqrtK piK r_field rj.1 sigma
      ((order_irreps.zip sh_cubes).filter (fun Jc => decide (Jc.1 ≤ rj.2))).map
        (fun Jc => (fun i j x y z => Jc.2 i j x y z * window x y z :
          Cube K dOut dIn size)))
    if 0 < basis.length then Except.ok (some basis) else Except.ok none
  else
    Except.error "len radii and len J_max_list differ"

/-- The three bandlimit modes of `gaussian_window_fct_convenience_wrapper`. -/
inductive Mode where
  | conservative
  | compromise
  | sfcnn
deriving DecidableEq

/-- The fixed per-mode bandlimit lookup tables of the wrapper. -/
def J_max_table : Mode → List ℕ
  | Mode.conservative => [0, 2, 4, 6, 8, 10, 12, 14]
  | Mode.compromise => [0, 3, 5, 7, 9, 11, 13, 15]
  | Mode.sfcnn => [0, 4, 6, 8, 10, 12, 14, 16]

/-- Embedding of `gaussian_window_fct_convenience_wrapper(...)`: derive
`n_radial = size//2 + 1`, `radii = torch.linspace(0, size//2 - border_dist, n_radial)`
and `J_max_list` as the mode's lookup table truncated to `n_radial` entries,
then delegate to `gaussian_window_fct`.  `size` is the side length of
`r_field` (the source reads it as `r_field.size(0)`). -/
def gaussian_window_fct_convenience_wrapper (expK sqrtK : K → K) (piK : K)
    {dOut dIn size : ℕ} (sh_cubes : List (Cube K dOut dIn size))
    (r_field : RField K size) (order_irreps : List ℕ) (mode : Mode)
    (border_dist sigma : K) :
    Except String (Option (List (Cube K dOut dIn size))) :=
  let n_radial := size / 2 + 1
  let radii := linspace 0 ((↑(size / 2) : K) - border_dist) n_radial
  gaussian_window_fct expK sqrtK piK sh_cubes r_field order_irreps radii
    ((J_max_table mode).take n_radial) sigma

/-! ## Helper lemmas -/

theorem linspace_length (a b : K) (steps : ℕ) : (linspace a b steps).length = steps := by
  unfold linspace
  split
  · simp_all
  · simp

theorem linspace_getD [CharZero K] (a b : K) {steps i : ℕ} (h1 : steps ≠ 1)
    (hi : i < steps) :
    (linspace a b steps).getD i 0 = a + (b - a) * (i : K) / ((steps : K) - 1) := by
  unfold linspace
  rw [if_neg h1, List.getD_eq_getElem?_getD, List.getElem?_map, List.getElem?_range hi]
  rfl

theorem rngVal_eq [CharZero K] {size : ℕ} (i : Fin size) :
    rngVal size i = (i : K) - ((size : K) - 1) / 2 := by
  unfold rngVal rng
  rcases eq_or_ne size 1 with h1 | h1
  · subst h1
    have : (i : ℕ) = 0 := by omega
    simp [linspace, this]
  · have h2 : 2 ≤ size := by
      have := i.2
      omega
    have hne : ((size : K) - 1) ≠ 0 := by
      have : ((size : K) - 1) = ((size - 1 : ℕ) : K) := by
        push_cast [Nat.cast_sub (by omega : 1 ≤ size)]
        ring
      rw [this]
      exact_mod_cast Nat.sub_ne_zero_of_lt (by omega)
    rw [linspace_getD _ _ h1 i.2]
    field_simp
    ring

theorem frobNormSq_nonneg {K : Type} [LinearOrderedField K] {dOut dIn size : ℕ}
    (c : Cube K dOut dIn size) : 0 ≤ frobNormSq c := by
  unfold frobNormSq
  positivity

theorem frobNormSq_div {dOut dIn size : ℕ} (c : Cube K dOut dIn size) (t : K) :
    frobNormSq (fun i j x y z => c i j x y z / t) = frobNormSq c / t ^ 2 := by
  unfold frobNormSq
  simp only [div_pow, ← Finset.sum_div]

theorem frobNormSq_normalizeCube {dOut dIn size : ℕ} (sqrtK : K → K)
    (c : Cube K dOut dIn size) :
    frobNormSq (normalizeCube sqrtK c) = frobNormSq c / (sqrtK (frobNormSq c)) ^ 2 := by
  unfold normalizeCube frobNorm
  exact frobNormSq_div c _

theorem pairwise_fst_zip {β : Type} {R : ℕ → ℕ → Prop} {l : List ℕ} (l' : List β)
    (h : l.Pairwise R) :
    (l.zip l').Pairwise (fun p q => R p.1 q.1) := by
  induction l generalizing l' with
  | nil => simp
  | cons a t ih =>
    cases l' with
    | nil => simp
    | cons b t' =>
      rw [List.zip_cons_cons]
      refine List.Pairwise.cons ?_ (ih t' h.of_cons)
      intro p hp
      rcases p with ⟨p1, p2⟩
      exact (List.rel_of_pairwise_cons h) (List.of_mem_zip hp).1

theorem takeWhile_eq_filter_of_sorted {β : Type} (m : ℕ) :
    ∀ (l : List (ℕ × β)), l.Pairwise (fun p q => p.1 ≤ q.1) →
      l.takeWhile (fun p => decide (p.1 ≤ m)) = l.filter (fun p => decide (p.1 ≤ m)) := by
  intro l
  induction l with
  | nil => intro _; rfl
  | cons a t ih =>
    intro h
    rw [List.takeWhile_cons, List.filter_cons]
    by_cases ha : a.1 ≤ m
    · have hd : decide (a.1 ≤ m) = true := decide_eq_true ha
      rw [hd, if_pos rfl, if_pos rfl, ih h.of_cons]
    · have hd : decide (a.1 ≤ m) = false := decide_eq_false ha
      rw [hd, if_neg (by simp), if_neg (by simp)]
      symm
      rw [List.filter_eq_nil_iff]
      intro b hb
      have := (List.rel_of_pairwise_cons h) hb
      simp only [decide_eq_true_eq]
      omega

theorem orderIrreps_sorted (order_in order_out : ℕ) :
    (orderIrreps order_in order_out).Sorted (· ≤ ·) := by
  unfold orderIrreps
  exact (List.pairwise_lt_range' _ _ 1 (by omega)).imp le_of_lt

/-! ## Claim theorems -/

/-- C8: `gaussian_window_fct` fails with the length-precondition assertion
error, before producing any basis element, whenever
`len(radii) != len(J_max_list)`; when the lengths are equal the check passes
and the function proceeds to return a (sentinel or stacked) basis. -/
theorem gaussian_window_fct_length_precondition (expK sqrtK : K → K) (piK : K)
    {dOut dIn size : ℕ} (sh_cubes : List (Cube K dOut dIn size))
    (r_field : RField K size) (order_irreps : List ℕ) (radii : List K)
    (J_max_list : List ℕ) (sigma : K) :
    (radii.length ≠ J_max_list.length →
      gaussian_window_fct expK sqrtK piK sh_cubes r_field order_irreps radii J_max_list
        sigma = Except.error "len radii and len J_max_list differ") ∧
    (radii.length = J_max_list.length →
      ∃ b, gaussian_window_fct expK sqrtK piK sh_cubes r_field order_irreps radii
        J_max_list sigma = Except.ok b) := by
  constructor
  · intro h
    unfold gaussian_window_fct
    rw [if_neg h]
  · intro h
    unfold gaussian_window_fct
    rw [if_pos h]
    simp only []
    split <;> exact ⟨_, rfl⟩

/-- Witness for C8: with one radius and no bandlimit the assertion fires;
with matching lengths the call succeeds. -/
theorem gaussian_window_fct_length_precondition_witness :
    gaussian_window_fct (K := ℚ) id id 1 ([] : List (Cube ℚ 1 1 1))
        (fun _ _ _ => 0) [] [(0 : ℚ)] [] 1 =
      Except.error "len radii and len J_max_list differ" ∧
    ∃ b, gaussian_window_fct (K := ℚ) id id 1 ([] : List (Cube ℚ 1 1 1))
        (fun _ _ _ => 0) [] [(0 : ℚ)] [0] 1 = Except.ok b := by
  constructor
  · exact (gaussian_window_fct_length_precondition id id 1 [] (fun _ _ _ => 0) [] [(0 : ℚ)]
      [] 1).1 (by decide)
  · exact (gaussian_window_fct_length_precondition id id 1 [] (fun _ _ _ => 0) [] [(0 : ℚ)]
      [0] 1).2 (by decide)

/-- C4: `_basis_transformation_Q_J` asserts that the common null space of the
five-rotation Sylvester system is exactly one-dimensional: any other count
yields a propagated assertion error with no recovery, and on a count of one
it returns the single null-space vector reshaped row-major into the
`(2*order_out+1)*(2*order_in+1) × (2*J+1)` matrix `Q_J` (the shape is carried
by the type of the returned function). -/
theorem basis_transformation_Q_J_null_space_assert
    (irr : (order : ℕ) → ℚ → ℚ → ℚ → Fin (2 * order + 1) → Fin (2 * order + 1) → K)
    (commonNull : (n : ℕ) → List (Fin n → Fin n → K) → List (Fin n → K))
    (J order_in order_out : ℕ) :
    (((commonNull ((2 * order_out + 1) * (2 * order_in + 1) * (2 * J + 1))
        (random_angles.map (fun t =>
          sylvester_submatrix irr J order_in order_out t.1 t.2.1 t.2.2))).length ≠ 1 →
      basis_transformation_Q_J irr commonNull J order_in order_out =
        Except.error "null space dimension is not 1")) ∧
    (∀ h : (commonNull ((2 * order_out + 1) * (2 * order_in + 1) * (2 * J + 1))
        (random_angles.map (fun t =>
          sylvester_submatrix irr J order_in order_out t.1 t.2.1 t.2.2))).length = 1,
      basis_transformation_Q_J irr commonNull J order_in order_out =
        Except.ok (fun i j =>
          (commonNull ((2 * order_out + 1) * (2 * order_in + 1) * (2 * J + 1))
            (random_angles.map (fun t =>
              sylvester_submatrix irr J order_in order_out t.1 t.2.1 t.2.2))).get
            ⟨0, by omega⟩ ⟨i.1 * (2 * J + 1) + j.1, flat_index_lt i.2 j.2⟩)) := by
  constructor
  · intro h
    unfold basis_transformation_Q_J
    rw [dif_neg h]
  · intro h
    unfold basis_transformation_Q_J
    rw [dif_pos h]

/-- Witness for C4: an extractor returning no null-space vector trips the
assertion; an extractor returning exactly one vector yields the reshaped
`Q_J`. -/
theorem basis_transformation_Q_J_null_space_assert_witness :
    basis_transformation_Q_J (K := ℚ) (fun _ _ _ _ _ _ => 0) (fun _ _ => []) 0 0 0 =
      Except.error "null space dimension is not 1" ∧
    basis_transformation_Q_J (K := ℚ) (fun _ _ _ _ _ _ => 0)
        (fun _ _ => [fun _ => 0]) 0 0 0 =
      Except.ok (fun _ _ => (0 : ℚ)) := by
  constructor
  · exact (basis_transformation_Q_J_null_space_assert (fun _ _ _ _ _ _ => 0)
      (fun _ _ => []) 0 0 0).1 (by decide)
  · exact (basis_transformation_Q_J_null_space_assert (fun _ _ _ _ _ _ => 0)
      (fun _ _ => [fun _ => 0]) 0 0 0).2 rfl

theorem linspace_head [CharZero K] (a b : K) {steps : ℕ} (h : 0 < steps) :
    (linspace a b steps).getD 0 0 = a := by
  rcases eq_or_ne steps 1 with h1 | h1
  · subst h1
    rfl
  · rw [linspace_getD a b h1 h]
    simp

theorem rngVal_eq_zero_iff {size : ℕ} (i : Fin size) :
    rngVal (K := ℚ) size i = 0 ↔ 2 * i.1 + 1 = size := by
  rw [rngVal_eq]
  constructor
  · intro h
    have h2 : ((2 * i.1 + 1 : ℕ) : ℚ) = (size : ℚ) := by
      push_cast
      linarith
    exact_mod_cast h2
  · intro h
    have h2 : ((size : ℚ)) = ((2 * i.1 + 1 : ℕ) : ℚ) := by exact_mod_cast h.symm
    push_cast at h2
    linarith

theorem rngVal_inj {size : ℕ} {i j : Fin size}
    (h : rngVal (K := ℚ) size i = rngVal (K := ℚ) size j) : i = j := by
  rw [rngVal_eq, rngVal_eq] at h
  have h2 : ((i : ℕ) : ℚ) = ((j : ℕ) : ℚ) := by linarith
  exact Fin.ext (by exact_mod_cast h2)

/-- C5: under the hypothesis that `order_irreps` is sorted ascending — as
guaranteed by `_sample_cube`, whose `order_irreps` is
`range(|order_in-order_out|, order_in+order_out+1)` — the early-stop loop of
`gaussian_window_fct` (break at the first `J` exceeding a shell's `J_max`)
produces exactly the same basis as the full filter keeping, for each shell
in order, every `J` in `order_irreps` with `J ≤ J_max`: the in-order
concatenation of the windowed cubes of all admissible `J` per shell. -/
theorem gaussian_window_fct_early_stop_eq_full_filter (expK sqrtK : K → K) (piK : K)
    {dOut dIn size : ℕ} (sh_cubes : List (Cube K dOut dIn size))
    (r_field : RField K size) (order_irreps : List ℕ) (radii : List K)
    (J_max_list : List ℕ) (sigma : K) :
    (order_irreps.Sorted (· ≤ ·) →
      gaussian_window_fct expK sqrtK piK sh_cubes r_field order_irreps radii
        J_max_list sigma =
      gaussian_window_fct_full_filter expK sqrtK piK sh_cubes r_field order_irreps
        radii J_max_list sigma) ∧
    (∀ order_in order_out : ℕ, (orderIrreps order_in order_out).Sorted (· ≤ ·)) := by
  constructor
  · intro hs
    unfold gaussian_window_fct gaussian_window_fct_full_filter
    have hzip : ∀ m : ℕ,
        (order_irreps.zip sh_cubes).takeWhile (fun Jc => decide (Jc.1 ≤ m)) =
        (order_irreps.zip sh_cubes).filter (fun Jc => decide (Jc.1 ≤ m)) := by
      intro m
      exact takeWhile_eq_filter_of_sorted m _ (pairwise_fst_zip sh_cubes hs)
    simp only [hzip]
  · exact orderIrreps_sorted

/-- Witness for C5: a sorted two-order list with a bandlimit cutting after
the first order gives identical results for the early-stop loop and the full
filter. -/
theorem gaussian_window_fct_early_stop_eq_full_filter_witness :
    gaussian_window_fct (K := ℚ) id id 1
        [(fun _ _ _ _ _ => 1 : Cube ℚ 1 1 1), (fun _ _ _ _ _ => 2 : Cube ℚ 1 1 1)]
        (fun _ _ _ => 0) [0, 1] [(0 : ℚ)] [0] 1 =
      gaussian_window_fct_full_filter (K := ℚ) id id 1
        [(fun _ _ _ _ _ => 1 : Cube ℚ 1 1 1), (fun _ _ _ _ _ => 2 : Cube ℚ 1 1 1)]
        (fun _ _ _ => 0) [0, 1] [(0 : ℚ)] [0] 1 :=
  (gaussian_window_fct_early_stop_eq_full_filter id id 1
    [(fun _ _ _ _ _ => 1 : Cube ℚ 1 1 1), (fun _ _ _ _ _ => 2 : Cube ℚ 1 1 1)]
    (fun _ _ _ => 0) [0, 1] [(0 : ℚ)] [0] 1).1 (by decide)

/-- C6: the convenience wrapper derives `n_radial = size//2 + 1` shell radii
starting at `0`, evenly spaced with constant step
`(size//2 - border_dist) / (n_radial - 1)` and ending at
`size//2 - border_dist` whenever there are at least two shells, together
with the bandlimit list obtained by truncating the mode's fixed lookup table
to `n_radial` entries, and delegates to `gaussian_window_fct` on exactly
these lists; for `size = 8` this gives `n_radial = 5` and, in conservative
mode, bandlimits `[0, 2, 4, 6, 8]`. -/
theorem gaussian_window_fct_convenience_wrapper_radii
    (expK sqrtK : ℚ → ℚ) (piK : ℚ) {dOut dIn size : ℕ}
    (sh_cubes : List (Cube ℚ dOut dIn size)) (r_field : RField ℚ size)
    (order_irreps : List ℕ) (mode : Mode) (border_dist sigma : ℚ) :
    (linspace (0 : ℚ) ((↑(size / 2) : ℚ) - border_dist) (size / 2 + 1)).length =
      size / 2 + 1 ∧
    (linspace (0 : ℚ) ((↑(size / 2) : ℚ) - border_dist) (size / 2 + 1)).getD 0 0 = 0 ∧
    (∀ i : ℕ, i + 1 < size / 2 + 1 →
      (linspace (0 : ℚ) ((↑(size / 2) : ℚ) - border_dist) (size / 2 + 1)).getD (i + 1) 0 -
        (linspace (0 : ℚ) ((↑(size / 2) : ℚ) - border_dist) (size / 2 + 1)).getD i 0 =
        ((↑(size / 2) : ℚ) - border_dist) / ((size / 2 : ℕ) : ℚ)) ∧
    (2 ≤ size / 2 + 1 →
      (linspace (0 : ℚ) ((↑(size / 2) : ℚ) - border_dist) (size / 2 + 1)).getD
        (size / 2) 0 = (↑(size / 2) : ℚ) - border_dist) ∧
    gaussian_window_fct_convenience_wrapper expK sqrtK piK sh_cubes r_field
        order_irreps mode border_dist sigma =
      gaussian_window_fct expK sqrtK piK sh_cubes r_field order_irreps
        (linspace (0 : ℚ) ((↑(size / 2) : ℚ) - border_dist) (size / 2 + 1))
        ((J_max_table mode).take (size / 2 + 1)) sigma ∧
    (size = 8 → size / 2 + 1 = 5 ∧
      (J_max_table Mode.conservative).take (size / 2 + 1) = [0, 2, 4, 6, 8]) := by
  refine ⟨linspace_length _ _ _, linspace_head _ _ (by omega), ?_, ?_, rfl, ?_⟩
  · intro i hi
    have hn : size / 2 + 1 ≠ 1 := by omega
    have hd : ((size / 2 : ℕ) : ℚ) ≠ 0 := Nat.cast_ne_zero.mpr (by omega)
    rw [linspace_getD _ _ hn (by omega), linspace_getD _ _ hn (by omega)]
    have hcast : ((size / 2 + 1 : ℕ) : ℚ) - 1 = ((size / 2 : ℕ) : ℚ) := by
      push_cast
      ring
    rw [hcast]
    push_cast
    field_simp
    ring
  · intro h2
    have hn : size / 2 + 1 ≠ 1 := by omega
    have hd : ((size / 2 : ℕ) : ℚ) ≠ 0 := Nat.cast_ne_zero.mpr (by omega)
    rw [linspace_getD _ _ hn (by omega)]
    have hcast : ((size / 2 + 1 : ℕ) : ℚ) - 1 = ((size / 2 : ℕ) : ℚ) := by
      push_cast
      ring
    rw [hcast]
    field_simp
  · intro h
    subst h
    exact ⟨rfl, rfl⟩

/-- Witness for C6: at `size = 8`, conservative mode, `border_dist = 1/2`:
five shells, first spacing `(4 - 1/2)/4`, bandlimits `[0, 2, 4, 6, 8]`. -/
theorem gaussian_window_fct_convenience_wrapper_radii_witness :
    ((linspace (0 : ℚ) ((↑(8 / 2 : ℕ) : ℚ) - 1 / 2) (8 / 2 + 1)).getD 1 0 -
      (linspace (0 : ℚ) ((↑(8 / 2 : ℕ) : ℚ) - 1 / 2) (8 / 2 + 1)).getD 0 0 =
      ((↑(8 / 2 : ℕ) : ℚ) - 1 / 2) / ((8 / 2 : ℕ) : ℚ)) ∧
    (8 / 2 + 1 = 5 ∧ (J_max_table Mode.conservative).take (8 / 2 + 1) = [0, 2, 4, 6, 8]) :=
  ⟨(gaussian_window_fct_convenience_wrapper_radii id id 1 ([] : List (Cube ℚ 1 1 8))
      (fun _ _ _ => 0) [] Mode.conservative (1 / 2) 1).2.2.1 0 (by decide),
   (gaussian_window_fct_convenience_wrapper_radii id id 1 ([] : List (Cube ℚ 1 1 8))
      (fun _ _ _ => 0) [] Mode.conservative (1 / 2) 1).2.2.2.2.2 rfl⟩

/-- C7: for a grid with an exact center voxel (odd `size`, center index
`(size-1)/2` on each axis), `_sample_sh_cube` writes the zero vector there
for every `J > 0` and the angle-independent constant
`spherical_harmonics(0, 123, 321)` for `J = 0`, while every other voxel is
sampled from the order-`J` spherical harmonic at its angular coordinate. -/
theorem sample_sh_cube_center_convention
    (sh : (J : ℕ) → ℚ → ℚ → Fin (2 * J + 1) → ℚ) (xab : ℚ × ℚ × ℚ → ℚ × ℚ)
    {size J : ℕ} (hodd : size % 2 = 1) (hc : (size - 1) / 2 < size) :
    (0 < J → ∀ m, sample_sh_cube sh xab size J m ⟨(size - 1) / 2, hc⟩
      ⟨(size - 1) / 2, hc⟩ ⟨(size - 1) / 2, hc⟩ = 0) ∧
    (∀ m, sample_sh_cube sh xab size 0 m ⟨(size - 1) / 2, hc⟩
      ⟨(size - 1) / 2, hc⟩ ⟨(size - 1) / 2, hc⟩ = sh 0 123 321 m) ∧
    (∀ (m : Fin (2 * J + 1)) (ix iy iz : Fin size),
      ¬(ix.1 = (size - 1) / 2 ∧ iy.1 = (size - 1) / 2 ∧ iz.1 = (size - 1) / 2) →
      sample_sh_cube sh xab size J m ix iy iz =
        sh J (xab (rngVal size ix, rngVal size iy, rngVal size iz)).1
          (xab (rngVal size ix, rngVal size iy, rngVal size iz)).2 m) := by
  have hz : rngVal (K := ℚ) size ⟨(size - 1) / 2, hc⟩ = 0 :=
    (rngVal_eq_zero_iff _).mpr (show 2 * ((size - 1) / 2) + 1 = size by omega)
  refine ⟨?_, ?_, ?_⟩
  · intro hJ m
    unfold sample_sh_cube
    rw [if_pos ⟨rfl, rfl, hz⟩, dif_neg (by omega)]
  · intro m
    unfold sample_sh_cube
    rw [if_pos ⟨rfl, rfl, hz⟩, dif_pos rfl]
    exact congrArg _ (Fin.ext rfl)
  · intro m ix iy iz hne
    unfold sample_sh_cube
    rw [if_neg ?_]
    intro hcond
    apply hne
    have hiz : iz = ⟨(size - 1) / 2, hc⟩ := by
      have h2 := (rngVal_eq_zero_iff iz).mp hcond.2.2
      exact Fin.ext (show iz.1 = (size - 1) / 2 by omega)
    have hiy : iy = iz := rngVal_inj hcond.2.1
    have hix : ix = iy := rngVal_inj hcond.1
    refine ⟨?_, ?_, ?_⟩ <;> simp [hix, hiy, hiz]

/-- Witness for C7: on the `3^3` grid the center voxel of the `J = 1` cube is
zero. -/
theorem sample_sh_cube_center_convention_witness :
    sample_sh_cube (fun J _ _ _ => (J : ℚ)) (fun p => (p.1, p.2.1)) 3 1
      ⟨0, by omega⟩ ⟨1, by omega⟩ ⟨1, by omega⟩ ⟨1, by omega⟩ = 0 :=
  (sample_sh_cube_center_convention (fun J _ _ _ => (J : ℚ)) (fun p => (p.1, p.2.1))
    (by decide) (by decide)).1 (by decide) ⟨0, by omega⟩

/-- C10: for every even `size` the sampling grid contains no zero coordinate,
so the origin special case of `_sample_sh_cube` is never taken: every voxel,
for every `J`, is evaluated through `x_to_alpha_beta` and
`spherical_harmonics`. -/
theorem sample_sh_cube_even_size_no_origin
    (sh : (J : ℕ) → ℚ → ℚ → Fin (2 * J + 1) → ℚ) (xab : ℚ × ℚ × ℚ → ℚ × ℚ)
    {size J : ℕ} (heven : size % 2 = 0) :
    (∀ i : Fin size, rngVal (K := ℚ) size i ≠ 0) ∧
    (∀ (m : Fin (2 * J + 1)) (ix iy iz : Fin size),
      sample_sh_cube sh xab size J m ix iy iz =
        sh J (xab (rngVal size ix, rngVal size iy, rngVal size iz)).1
          (xab (rngVal size ix, rngVal size iy, rngVal size iz)).2 m) := by
  have hnz : ∀ i : Fin size, rngVal (K := ℚ) size i ≠ 0 := by
    intro i h
    have := (rngVal_eq_zero_iff i).mp h
    omega
  refine ⟨hnz, ?_⟩
  intro m ix iy iz
  unfold sample_sh_cube
  rw [if_neg ?_]
  intro hcond
  exact hnz iz hcond.2.2

/-- Witness for C10: on the `2^3` grid every voxel of the `J = 0` cube reads
its value from the spherical harmonic at the voxel angle; at the corner voxel
with the chosen evaluators this value is the alpha coordinate `-1/2`. -/
theorem sample_sh_cube_even_size_no_origin_witness :
    sample_sh_cube (fun _ a _ _ => a) (fun p => (p.1, p.2.1)) 2 0
      ⟨0, by omega⟩ ⟨0, by omega⟩ ⟨0, by omega⟩ ⟨0, by omega⟩ = -(1 / 2 : ℚ) := by
  rw [(sample_sh_cube_even_size_no_origin (fun _ a _ _ => a) (fun p => (p.1, p.2.1))
    (by decide)).2 ⟨0, by omega⟩ ⟨0, by omega⟩ ⟨0, by omega⟩ ⟨0, by omega⟩]
  show rngVal (K := ℚ) 2 ⟨0, by omega⟩ = -(1 / 2)
  rw [rngVal_eq]
  norm_num

theorem gaussian_window_fct_ne_empty_stack (expK sqrtK : K → K) (piK : K)
    {dOut dIn size : ℕ} (sh_cubes : List (Cube K dOut dIn size))
    (r_field : RField K size) (order_irreps : List ℕ) (radii : List K)
    (J_max_list : List ℕ) (sigma : K) :
    gaussian_window_fct expK sqrtK piK sh_cubes r_field order_irreps radii
      J_max_list sigma ≠ Except.ok (some []) := by
  unfold gaussian_window_fct
  split
  · simp only []
    split
    · intro heq
      rw [Except.ok.injEq, Option.some.injEq] at heq
      simp_all
    · simp
  · simp

/-- C2: `cube_basis_kernels` returns the `None` sentinel exactly when the
radial window yields the empty-basis sentinel, and otherwise a stacked basis
of `N ≥ 1` elements, each of type `Cube K (2*order_out+1) (2*order_in+1) size`
(the shape contract is carried by the return type); it never returns a
zero-sized stack.  The hypothesis is the window contract that an empty
selection is reported as the sentinel rather than as an empty stack; the
first conjunct proves this contract holds unconditionally for the
repository's `gaussian_window_fct`. -/
theorem cube_basis_kernels_shape_contract [DecidableEq K]
    (sh : (J : ℕ) → K → K → Fin (2 * J + 1) → K) (xab : K × K × K → K × K)
    (sqrtK : K → K) (size order_in order_out : ℕ)
    (Q : (J : ℕ) → Fin ((2 * order_out + 1) * (2 * order_in + 1)) → Fin (2 * J + 1) → K)
    (radial_window :
      List (Cube K (2 * order_out + 1) (2 * order_in + 1) size) → RField K size → List ℕ →
      Except String (Option (List (Cube K (2 * order_out + 1) (2 * order_in + 1) size))))
    (hw : ∀ s r o, radial_window s r o ≠ Except.ok (some [])) :
    (∀ (expK piK' : K → K) (piK : K) (dOut dIn size' : ℕ)
      (shc : List (Cube K dOut dIn size')) (rf : RField K size') (oi : List ℕ)
      (radii : List K) (jml : List ℕ) (sigma : K),
      gaussian_window_fct expK piK' piK shc rf oi radii jml sigma ≠
        Except.ok (some [])) ∧
    (cube_basis_kernels sh xab sqrtK size order_in order_out Q radial_window =
        Except.ok none ↔
      radial_window (sample_cube sh xab sqrtK size order_in order_out Q).1
        (sample_cube sh xab sqrtK size order_in order_out Q).2.1
        (sample_cube sh xab sqrtK size order_in order_out Q).2.2 = Except.ok none) ∧
    (∀ l, cube_basis_kernels sh xab sqrtK size order_in order_out Q radial_window =
        Except.ok (some l) → 1 ≤ l.length) := by
  refine ⟨fun expK piK' piK dOut dIn size' shc rf oi radii jml sigma =>
    gaussian_window_fct_ne_empty_stack expK piK' piK shc rf oi radii jml sigma, ?_, ?_⟩
  · unfold cube_basis_kernels
    rcases hres : radial_window (sample_cube sh xab sqrtK size order_in order_out Q).1
        (sample_cube sh xab sqrtK size order_in order_out Q).2.1
        (sample_cube sh xab sqrtK size order_in order_out Q).2.2 with e | o
    · simp [hres]
    · rcases o with _ | basis
      · simp [hres]
      · simp [hres]
  · intro l
    unfold cube_basis_kernels
    rcases hres : radial_window (sample_cube sh xab sqrtK size order_in order_out Q).1
        (sample_cube sh xab sqrtK size order_in order_out Q).2.1
        (sample_cube sh xab sqrtK size order_in order_out Q).2.2 with e | o
    · simp [hres]
    · rcases o with _ | basis
      · simp [hres]
      · simp only [hres]
        intro heq
        rw [Except.ok.injEq, Option.some.injEq] at heq
        have hbne : basis ≠ [] := by
          intro hnil
          exact hw _ _ _ (hnil ▸ hres)
        subst heq
        unfold normalizeBasis
        rcases basis with _ | ⟨c, t⟩
        · exact absurd rfl hbne
        · simp

/-- Witness for C2: with a one-shell gaussian window at `order_in = order_out = 0`,
`size = 1`, the call returns the sentinel exactly when the window does. -/
theorem cube_basis_kernels_shape_contract_witness :
    cube_basis_kernels (K := ℚ) (fun _ _ _ _ => 1) (fun _ => (0, 0)) id 1 0 0
        (fun _ _ _ => 1)
        (fun s r o => gaussian_window_fct id id 1 s r o [(0 : ℚ)] [0] 1) =
        Except.ok none ↔
      gaussian_window_fct id id 1
        (sample_cube (K := ℚ) (fun _ _ _ _ => 1) (fun _ => (0, 0)) id 1 0 0
          (fun _ _ _ => 1)).1
        (sample_cube (K := ℚ) (fun _ _ _ _ => 1) (fun _ => (0, 0)) id 1 0 0
          (fun _ _ _ => 1)).2.1
        (sample_cube (K := ℚ) (fun _ _ _ _ => 1) (fun _ => (0, 0)) id 1 0 0
          (fun _ _ _ => 1)).2.2 [(0 : ℚ)] [0] 1 = Except.ok none :=
  (cube_basis_kernels_shape_contract (fun _ _ _ _ => 1) (fun _ => (0, 0)) id 1 0 0
    (fun _ _ _ => 1) (fun s r o => gaussian_window_fct id id 1 s r o [(0 : ℚ)] [0] 1)
    (fun s r o => gaussian_window_fct_ne_empty_stack id id 1 s r o [(0 : ℚ)] [0] 1)).2.1

/-- C3: whenever `cube_basis_kernels` returns a non-sentinel basis, each
returned element is the corresponding windowed element divided by its own
Frobenius norm — the normalization maps element `i` of the window output to
element `i` of the result, never mixing elements — and, provided every
windowed element is nonzero (see the companion safety theorem for the zero
case), every returned element has Frobenius norm exactly `1`. -/
theorem cube_basis_kernels_unit_norm
    (sh : (J : ℕ) → ℝ → ℝ → Fin (2 * J + 1) → ℝ) (xab : ℝ × ℝ × ℝ → ℝ × ℝ)
    (size order_in order_out : ℕ)
    (Q : (J : ℕ) → Fin ((2 * order_out + 1) * (2 * order_in + 1)) → Fin (2 * J + 1) → ℝ)
    (radial_window :
      List (Cube ℝ (2 * order_out + 1) (2 * order_in + 1) size) → RField ℝ size → List ℕ →
      Except String (Option (List (Cube ℝ (2 * order_out + 1) (2 * order_in + 1) size))))
    (b : List (Cube ℝ (2 * order_out + 1) (2 * order_in + 1) size))
    (hb : radial_window (sample_cube sh xab Real.sqrt size order_in order_out Q).1
      (sample_cube sh xab Real.sqrt size order_in order_out Q).2.1
      (sample_cube sh xab Real.sqrt size order_in order_out Q).2.2 = Except.ok (some b))
    (hnz : ∀ c ∈ b, frobNormSq c ≠ 0) :
    cube_basis_kernels sh xab Real.sqrt size order_in order_out Q radial_window =
      Except.ok (some (b.map (normalizeCube Real.sqrt))) ∧
    ∀ c ∈ b, frobNorm Real.sqrt (normalizeCube Real.sqrt c) = 1 := by
  constructor
  · unfold cube_basis_kernels
    simp only [hb]
    rfl
  · intro c hc
    have h0 : 0 ≤ frobNormSq c := frobNormSq_nonneg c
    have hS : frobNormSq (normalizeCube Real.sqrt c) = 1 := by
      rw [frobNormSq_normalizeCube, Real.sq_sqrt h0, div_self (hnz c hc)]
    unfold frobNorm
    rw [hS, Real.sqrt_one]

/-- Witness for C3: a single windowed element with constant entry `1` on the
`1^3` grid is returned with Frobenius norm `1`. -/
theorem cube_basis_kernels_unit_norm_witness :
    frobNorm Real.sqrt (normalizeCube Real.sqrt
      ((fun _ _ _ _ _ => 1) : Cube ℝ (2 * 0 + 1) (2 * 0 + 1) 1)) = 1 :=
  (cube_basis_kernels_unit_norm (fun _ _ _ _ => 0) (fun _ => (0, 0)) 1 0 0
    (fun _ _ _ => 0)
    (fun _ _ _ => Except.ok (some [(fun _ _ _ _ _ => 1)]))
    [(fun _ _ _ _ _ => 1)] rfl
    (by
      intro c hc
      rw [List.mem_singleton] at hc
      subst hc
      show frobNormSq ((fun _ _ _ _ _ => 1) : Cube ℝ (2 * 0 + 1) (2 * 0 + 1) 1) ≠ 0
      unfold frobNormSq
      norm_num)).2
    (fun _ _ _ _ _ => 1) (List.mem_singleton.mpr rfl)

/-- C9: the normalization in `cube_basis_kernels` divides each windowed
element by its own Frobenius norm with no guard against a zero norm: on a
windowed element that is identically zero (squared Frobenius norm `0`) the
call still succeeds and the division degenerates — the corresponding output
slice is the zero cube, of Frobenius norm `0` rather than `1` — instead of
raising an error.  (`check_basis_equivariance` performs the same unguarded
`normalizeBasis` operation on line 251.) -/
theorem cube_basis_kernels_unguarded_zero_norm
    (sh : (J : ℕ) → ℝ → ℝ → Fin (2 * J + 1) → ℝ) (xab : ℝ × ℝ × ℝ → ℝ × ℝ)
    (size order_in order_out : ℕ)
    (Q : (J : ℕ) → Fin ((2 * order_out + 1) * (2 * order_in + 1)) → Fin (2 * J + 1) → ℝ)
    (radial_window :
      List (Cube ℝ (2 * order_out + 1) (2 * order_in + 1) size) → RField ℝ size → List ℕ →
      Except String (Option (List (Cube ℝ (2 * order_out + 1) (2 * order_in + 1) size))))
    (b : List (Cube ℝ (2 * order_out + 1) (2 * order_in + 1) size))
    (c : Cube ℝ (2 * order_out + 1) (2 * order_in + 1) size)
    (hb : radial_window (sample_cube sh xab Real.sqrt size order_in order_out Q).1
      (sample_cube sh xab Real.sqrt size order_in order_out Q).2.1
      (sample_cube sh xab Real.sqrt size order_in order_out Q).2.2 = Except.ok (some b))
    (hc : c ∈ b) (h0 : frobNormSq c = 0) :
    cube_basis_kernels sh xab Real.sqrt size order_in order_out Q radial_window =
      Except.ok (some (b.map (normalizeCube Real.sqrt))) ∧
    normalizeCube Real.sqrt c = (fun _ _ _ _ _ => (0 : ℝ)) ∧
    frobNorm Real.sqrt (normalizeCube Real.sqrt c) = 0 := by
  refine ⟨?_, ?_, ?_⟩
  · unfold cube_basis_kernels
    simp only [hb]
    rfl
  · funext i j x y z
    unfold normalizeCube frobNorm
    rw [h0, Real.sqrt_zero, div_zero]
  · unfold frobNorm
    rw [frobNormSq_normalizeCube, h0, zero_div, Real.sqrt_zero]

/-- Witness for C9: a window returning the identically-zero cube makes the
normalization produce the zero cube of norm `0`, with no error raised. -/
theorem cube_basis_kernels_unguarded_zero_norm_witness :
    frobNorm Real.sqrt (normalizeCube Real.sqrt
      ((fun _ _ _ _ _ => 0) : Cube ℝ (2 * 0 + 1) (2 * 0 + 1) 1)) = 0 :=
  (cube_basis_kernels_unguarded_zero_norm (fun _ _ _ _ => 0) (fun _ => (0, 0)) 1 0 0
    (fun _ _ _ => 0)
    (fun _ _ _ => Except.ok (some [(fun _ _ _ _ _ => 0)]))
    [(fun _ _ _ _ _ => 0)] (fun _ _ _ _ _ => 0) rfl (List.mem_singleton.mpr rfl)
    (by
      show frobNormSq ((fun _ _ _ _ _ => 0) : Cube ℝ (2 * 0 + 1) (2 * 0 + 1) 1) = 0
      unfold frobNormSq
      norm_num)).2.2

end SE3CNN
